import Mathlib

/-!
# docker_app_lifecycle: the `builder` command (`builder/main.go`)

A shallow embedding of the two pieces of logic in `builder/main.go`:

* `registries.Set`, the `flag.Value` implementation validating the
  `-insecureDockerRegistries` option, and
* `main`, the entry point mapping configuration errors and the result of the
  process group to an exit status, together with the error handling of the
  `flag` package for the `flag.ExitOnError` flag set `main` creates.

Go strings are modelled as lists of Unicode code points (`GoString`), which is
exact for strings holding valid UTF-8: the separators searched for (`,`, `:`,
`://`) are ASCII, so byte-level and code-point-level search agree.  A Go
`error` built with `errors.New` is modelled by its message, `nil` by `none`.
-/

namespace BuilderMain

/-- A Go string holding valid UTF-8, as its sequence of code points. -/
abbrev GoString := List Char

/-! ## The parts of Go's `strings` and `unicode` packages used by the source -/

/-- Go's `unicode.IsSpace`: the Latin-1 cases `'\t' '\n' '\v' '\f' '\r' ' '`, U+0085, U+00A0,
and beyond Latin-1 the `White_Space` table. -/
def isSpace (r : Char) : Bool :=
  let n := r.toNat
  if n ≤ 0xFF then
    n = 0x09 || n = 0x0A || n = 0x0B || n = 0x0C || n = 0x0D || n = 0x20 || n = 0x85 || n = 0xA0
  else
    n = 0x1680 || (0x2000 ≤ n && n ≤ 0x200A) || n = 0x2028 || n = 0x2029 || n = 0x202F
      || n = 0x205F || n = 0x3000

/-- Go's `strings.TrimSpace`: all leading and trailing white space removed. -/
def TrimSpace (s : GoString) : GoString :=
  ((s.dropWhile isSpace).reverse.dropWhile isSpace).reverse

/-- Go's `strings.HasPrefix s pre`. -/
def HasPrefix : GoString → GoString → Bool
  | _, [] => true
  | [], _ :: _ => false
  | c :: s, p :: ps => c == p && HasPrefix s ps

/-- Go's `strings.Index s substr`: the position of the first instance of `substr` in `s`,
`none` standing for Go's `-1`. -/
def Index (s substr : GoString) : Option Nat :=
  if HasPrefix s substr then some 0
  else
    match s with
    | [] => none
    | _ :: t => (Index t substr).map (· + 1)

/-- Go's `strings.Contains s substr`, which is `Index(s, substr) >= 0`. -/
def Contains (s substr : GoString) : Bool :=
  (Index s substr).isSome

/-- Go's `strings.Split s sep` for a one-character separator (the source only splits on `","`):
the substrings of `s` between the occurrences of `sep`, always at least one. -/
def Split (s : GoString) (sep : Char) : List GoString :=
  match s with
  | [] => [[]]
  | c :: cs =>
    if c = sep then [] :: Split cs sep
    else
      match Split cs sep with
      | [] => [[c]]
      | t :: ts => (c :: t) :: ts

/-! ## `registries` and `registries.Set` -/

/-- The type `registries`, a `[]string`. -/
abbrev registries := List GoString

/-- The `for _, reg := range ...` loop of `registries.Set`, run over the pieces still to be
visited with the accumulator `r`; returns the accumulator and the returned error. -/
def registries.Set.loop (r : registries) : List GoString → registries × Option GoString
  | [] => (r, none)
  | reg :: rest =>
    let registry := TrimSpace reg
    if Contains registry "://".toList then
      (r, some ("no scheme allowed for insecure Docker Registry [".toList ++ registry ++ "]".toList))
    else if !Contains registry ":".toList then
      (r, some ("ip:port expected for insecure Docker Registry [".toList ++ registry ++ "]".toList))
    else
      registries.Set.loop (r ++ [registry]) rest

/-- The method `func (r *registries) Set(value string) error`: the receiver's contents before the call
are `r`; the result is the receiver's contents after the call and the returned error. -/
def registries.Set (r : registries) (value : GoString) : registries × Option GoString :=
  if r.length > 0 then
    (r, some "Docker Registries flag already set".toList)
  else
    registries.Set.loop r (Split value ',')

/-! ## Vocabulary of the specification for the registry list validator -/

/-- The tokens of a value: split on `,`, each trimmed of surrounding white space. -/
def tokens (value : GoString) : List GoString :=
  (Split value ',').map TrimSpace

/-- A token is a valid address when it contains `:` and does not contain `://`. -/
def validAddress (t : GoString) : Bool :=
  Contains t ":".toList && !Contains t "://".toList

/-- The error `AlreadySetError`. -/
def alreadySetError : GoString :=
  "Docker Registries flag already set".toList

/-- The error `SchemeNotAllowedError` for a token. -/
def schemeError (t : GoString) : GoString :=
  "no scheme allowed for insecure Docker Registry [".toList ++ t ++ "]".toList

/-- The error `MissingPortError` for a token. -/
def missingPortError (t : GoString) : GoString :=
  "ip:port expected for insecure Docker Registry [".toList ++ t ++ "]".toList

/-- The number of `:` characters of a string. -/
def colonCount (t : GoString) : Nat :=
  t.count ':'

/-- No white space at either end of a string. -/
def noOuterSpace (t : GoString) : Prop :=
  (∀ c, t.head? = some c → isSpace c = false) ∧ (∀ c, t.getLast? = some c → isSpace c = false)

/-- The accumulator after a sequence of `Set` calls, each call's error being dropped. -/
def setAll (r : registries) (values : List GoString) : registries :=
  values.foldl (fun acc v => (registries.Set acc v).1) r

/-- The error the loop returns at an offending token. -/
def tokenError (t : GoString) : GoString :=
  if Contains t "://".toList then schemeError t else missingPortError t

/-- The invariant of the accumulator: every entry is a trimmed valid address. -/
def goodEntries (r : registries) : Prop :=
  ∀ e ∈ r, Contains e ":".toList = true ∧ Contains e "://".toList = false ∧ noOuterSpace e

/-! ## `main` -/

/-- The `Builder` value `main` configures (the fields `main` sets). -/
structure Builder where
  RepoName : GoString
  Tag : GoString
  InsecureDockerRegistries : registries
  OutputFilename : GoString
deriving DecidableEq

/-- The `DockerDaemon` value `main` configures. -/
structure DockerDaemon where
  DockerDaemonPath : GoString
  InsecureDockerRegistries : registries
deriving DecidableEq

/-- The values of the flag variables once `flagSet.Parse` has returned. -/
structure Flags where
  dockerImageURL : GoString
  dockerRef : GoString
  insecureDockerRegistries : registries
  outputFilename : GoString
  dockerDaemonExecutablePath : GoString
deriving DecidableEq

/-- What `main` calls outside `main.go`, over the type `URL` of parsed URLs (`*url.URL`):
the error the `flag` package meets while reading the arguments (nil when they parse),
`url.Parse`, the two resolvers of package `helpers`,
the error of `os.Stat`, and the error received from `process.Wait()` for the group invoked
over the two configured workers. -/
structure World (URL : Type) where
  flagParse : Option GoString
  urlParse : GoString → Except GoString URL
  ParseDockerURL : URL → GoString × GoString
  ParseDockerRef : GoString → GoString × GoString
  stat : GoString → Option GoString
  groupWait : Builder → DockerDaemon → Option GoString

/-- The steps of `main` its contract speaks of, in program order. -/
inductive Event (URL : Type) where
  /-- The builtin `println` of a diagnostic line. -/
  | println (line : GoString)
  /-- What the `flag` package writes for a parse error (the message, the usage) before it
  ends the process. -/
  | flagReport
  /-- The call `flagSet.PrintDefaults()`. -/
  | printDefaults
  /-- The call `helpers.ParseDockerURL(parts)`. -/
  | parseDockerURL (parts : URL)
  /-- The call `helpers.ParseDockerRef(ref)`. -/
  | parseDockerRef (ref : GoString)
  /-- The construction of the `Builder` value. -/
  | builder (b : Builder)
  /-- The construction of the group over the two members and its start with `ifrit.Invoke`. -/
  | invoke (b : Builder) (d : DockerDaemon)
  /-- A status line written with `fmt.Println`. -/
  | status (line : GoString)
deriving DecidableEq

/-- A run of `main`: the steps taken and the exit status of the process (`os.Exit(n)`, or
0 when `main` returns). -/
structure Run (URL : Type) where
  trace : List (Event URL)
  exit : Nat
deriving DecidableEq

/-- Go's `flag.ErrorHandling`. -/
inductive ErrorHandling where
  | ContinueOnError
  | ExitOnError
  | PanicOnError
deriving DecidableEq

/-- How a call of `flagSet.Parse` ends: it returns an error or nil to its caller, it ends
the process with `os.Exit`, or it panics. -/
inductive ParseOutcome where
  | returned (err : Option GoString)
  | exited (status : Nat)
  | panicked (err : GoString)
deriving DecidableEq

/-- The message of `flag.ErrHelp`, the error of `-h` or `-help` on a flag set that does not
define such a flag; no other parse error of the `flag` package has this text. -/
def ErrHelp : GoString :=
  "flag: help requested".toList

/-- Go's `(*flag.FlagSet).Parse`, from the error `found` met while reading the arguments:
without an error it returns nil; with one, `ContinueOnError` returns it, `ExitOnError` calls
`os.Exit(0)` for `ErrHelp` and `os.Exit(2)` otherwise, `PanicOnError` panics. -/
def FlagSet.Parse (errorHandling : ErrorHandling) (found : Option GoString) : ParseOutcome :=
  match found with
  | none => .returned none
  | some err =>
    match errorHandling with
    | .ContinueOnError => .returned (some err)
    | .ExitOnError => if err = ErrHelp then .exited 0 else .exited 2
    | .PanicOnError => .panicked err

/-- Lines 78-111 of `main`: from the construction of the `Builder` value on, `pre` being the
steps taken so far. -/
def main.stage {URL : Type} (w : World URL) (f : Flags) (pre : List (Event URL))
    (repoName tag : GoString) : Run URL :=
  let builder : Builder :=
    { RepoName := repoName
      Tag := tag
      InsecureDockerRegistries := f.insecureDockerRegistries
      OutputFilename := f.outputFilename }
  match w.stat f.dockerDaemonExecutablePath with
  | some _ =>
    { trace := pre ++ [.builder builder,
        .println ("docker daemon not found in ".toList ++ f.dockerDaemonExecutablePath)]
      exit := 1 }
  | none =>
    let dockerDaemon : DockerDaemon :=
      { DockerDaemonPath := f.dockerDaemonExecutablePath
        InsecureDockerRegistries := f.insecureDockerRegistries }
    match w.groupWait builder dockerDaemon with
    | some err =>
      { trace := pre ++ [.builder builder, .invoke builder dockerDaemon,
          .status "Staging process started ...".toList,
          .println ("Staging process failed: ".toList ++ err)]
        exit := 2 }
    | none =>
      { trace := pre ++ [.builder builder, .invoke builder dockerDaemon,
          .status "Staging process started ...".toList,
          .status "Staging process finished".toList]
        exit := 0 }

/-- The function `main`, from the call of `flagSet.Parse` on.  The flag set is created with
`flag.ExitOnError` (line 23), so the call is `FlagSet.Parse .ExitOnError`; when the process
ends inside it the exit status is the one the `flag` package chose (an unrecovered panic
ends a Go process with status 2). -/
def main {URL : Type} (w : World URL) (f : Flags) : Run URL :=
  match FlagSet.Parse .ExitOnError w.flagParse with
  | .exited status => { trace := [.flagReport], exit := status }
  | .panicked _ => { trace := [], exit := 2 }
  | .returned (some err) => { trace := [.println err], exit := 1 }
  | .returned none =>
    if f.dockerImageURL.length > 0 then
      match w.urlParse f.dockerImageURL with
      | .error _ =>
        { trace := [.println ("invalid dockerImageURL: ".toList ++ f.dockerImageURL),
            .printDefaults]
          exit := 1 }
      | .ok parts =>
        main.stage w f [.parseDockerURL parts] (w.ParseDockerURL parts).1 (w.ParseDockerURL parts).2
    else if f.dockerRef.length > 0 then
      main.stage w f [.parseDockerRef f.dockerRef]
        (w.ParseDockerRef f.dockerRef).1 (w.ParseDockerRef f.dockerRef).2
    else
      { trace := [.println "missing flag: dockerImageURL or dockerRef required".toList,
          .printDefaults]
        exit := 1 }

/-- The `Builder` value of `main` for a resolved pair. -/
def builderOf (f : Flags) (repoName tag : GoString) : Builder :=
  { RepoName := repoName
    Tag := tag
    InsecureDockerRegistries := f.insecureDockerRegistries
    OutputFilename := f.outputFilename }

/-- The `DockerDaemon` value of `main`. -/
def daemonOf (f : Flags) : DockerDaemon :=
  { DockerDaemonPath := f.dockerDaemonExecutablePath
    InsecureDockerRegistries := f.insecureDockerRegistries }

/-- The resolver `main` is to use for the given flags: the URL resolver on the parsed
`dockerImageURL` when that flag is non-empty, the reference-string resolver on `dockerRef`
when `dockerImageURL` is empty and `dockerRef` is not. -/
def chosenPair {URL : Type} (w : World URL) (f : Flags) : Option (GoString × GoString) :=
  if f.dockerImageURL ≠ [] then
    match w.urlParse f.dockerImageURL with
    | .error _ => none
    | .ok parts => some (w.ParseDockerURL parts)
  else if f.dockerRef ≠ [] then some (w.ParseDockerRef f.dockerRef)
  else none

/-- A sample world: parsing succeeds, a URL is parsed to what follows `docker://`, both
resolvers answer the tag `latest`, the daemon binary exists and the group result is nil. -/
def sampleWorld : World GoString :=
  { flagParse := none
    urlParse := fun s =>
      if HasPrefix s "docker://".toList then .ok (s.drop 9) else .error "parse error".toList
    ParseDockerURL := fun parts => (parts, "latest".toList)
    ParseDockerRef := fun ref => (ref, "latest".toList)
    stat := fun _ => none
    groupWait := fun _ _ => none }

/-- Sample flags with both `dockerImageURL` and `dockerRef` given. -/
def sampleFlags : Flags :=
  { dockerImageURL := "docker://cloudfoundry/diego".toList
    dockerRef := "busybox".toList
    insecureDockerRegistries := ["10.244.2.6:8080".toList]
    outputFilename := "/tmp/result/result.json".toList
    dockerDaemonExecutablePath := "/tmp/docker_app_lifecycle/docker".toList }

/-- The flag variables at their defaults, as for the command line `builder -noSuchFlag`. -/
def defaultFlags : Flags :=
  { dockerImageURL := []
    dockerRef := []
    insecureDockerRegistries := []
    outputFilename := "/tmp/result/result.json".toList
    dockerDaemonExecutablePath := "/tmp/docker_app_lifecycle/docker".toList }

/-- The sample world for the command line `builder -noSuchFlag`: reading the arguments
meets the error of an undefined flag. -/
def undefinedFlagWorld : World GoString :=
  { sampleWorld with flagParse := some "flag provided but not defined: -noSuchFlag".toList }

/-! ## Properties of the string functions -/

theorem Split_ne_nil (s : GoString) (sep : Char) : Split s sep ≠ [] := by
  induction s with
  | nil => simp [Split]
  | cons c cs ih =>
    unfold Split
    split
    · simp
    · split
      · simp
      · simp

/-- No piece of `Split s sep` contains the separator. -/
theorem Split_no_sep (s : GoString) (sep : Char) : ∀ t ∈ Split s sep, sep ∉ t := by
  induction s with
  | nil => simp [Split]
  | cons c cs ih =>
    unfold Split
    by_cases h : c = sep
    · simp only [h, if_true, List.mem_cons]
      rintro t (rfl | ht)
      · simp
      · exact ih t ht
    · simp only [h, if_false]
      cases hs : Split cs sep with
      | nil => exact absurd hs (Split_ne_nil cs sep)
      | cons t ts =>
        rw [hs] at ih
        simp only [List.mem_cons]
        rintro u (rfl | hu)
        · have := ih t (by simp)
          simp only [List.mem_cons, not_or]
          exact ⟨fun e => h e.symm, this⟩
        · exact ih u (by simp [hu])

/-- Joining the pieces of `Split s sep` with the separator gives `s` back. -/
theorem Split_intercalate (s : GoString) (sep : Char) :
    List.intercalate [sep] (Split s sep) = s := by
  induction s with
  | nil => simp [Split, List.intercalate]
  | cons c cs ih =>
    unfold Split
    by_cases h : c = sep
    · simp only [h, if_true]
      cases hs : Split cs sep with
      | nil => exact absurd hs (Split_ne_nil cs sep)
      | cons t ts =>
        rw [hs] at ih
        simp only [List.intercalate, List.intersperse, List.flatten_cons, List.nil_append,
          List.singleton_append] at ih ⊢
        rw [ih]
    · simp only [h, if_false]
      cases hs : Split cs sep with
      | nil => exact absurd hs (Split_ne_nil cs sep)
      | cons t ts =>
        rw [hs] at ih
        cases ts with
        | nil =>
          simp only [List.intercalate, List.intersperse, List.flatten_cons, List.flatten_nil,
            List.append_nil] at ih ⊢
          rw [ih]
        | cons u us =>
          simp only [List.intercalate, List.intersperse, List.flatten_cons, List.cons_append] at ih ⊢
          rw [ih]

theorem Index_singleton_isSome (c : Char) (s : GoString) :
    (Index s [c]).isSome = true ↔ c ∈ s := by
  induction s with
  | nil => simp [Index, HasPrefix]
  | cons a t ih =>
    unfold Index
    by_cases h : a = c
    · simp [HasPrefix, h]
    · have h2 : ¬ c = a := fun e => h e.symm
      simp [HasPrefix, h, h2, ih]

theorem Contains_singleton (c : Char) (s : GoString) : Contains s [c] = true ↔ c ∈ s := by
  simp [Contains, Index_singleton_isSome]

theorem HasPrefix_iff (s p : GoString) : HasPrefix s p = true ↔ p <+: s := by
  induction p generalizing s with
  | nil => simp [HasPrefix]
  | cons a p ih =>
    cases s with
    | nil => simp [HasPrefix]
    | cons b s =>
      simp only [HasPrefix, Bool.and_eq_true, beq_iff_eq, ih, List.cons_prefix_cons]
      constructor
      · rintro ⟨h1, h2⟩; exact ⟨h1.symm, h2⟩
      · rintro ⟨h1, h2⟩; exact ⟨h1.symm, h2⟩

theorem Contains_iff_substring (s sub : GoString) : Contains s sub = true ↔ sub <:+: s := by
  unfold Contains
  induction s with
  | nil =>
    unfold Index
    by_cases h : HasPrefix [] sub = true
    · have h2 := (HasPrefix_iff _ _).1 h
      simp [h, List.eq_nil_of_prefix_nil h2, HasPrefix]
    · have h3 : ¬ sub = [] := fun e => h (by simp [e, HasPrefix])
      simp [h, h3]
  | cons a t ih =>
    unfold Index
    by_cases h : HasPrefix (a :: t) sub = true
    · simp only [h, if_true, Option.isSome_some, true_iff]
      exact ((HasPrefix_iff _ _).1 h).isInfix
    · simp only [h, Bool.false_eq_true, if_false, Option.isSome_map', ih]
      rw [List.infix_cons_iff]
      constructor
      · exact fun h2 => Or.inr h2
      · rintro (h2 | h2)
        · exact absurd ((HasPrefix_iff _ _).2 h2) h
        · exact h2

theorem Contains_scheme_colon (s : GoString) (h : Contains s "://".toList = true) :
    Contains s ":".toList = true := by
  rw [Contains_iff_substring] at h ⊢
  exact List.IsInfix.trans ⟨[], "//".toList, rfl⟩ h

/-! ## The loop of `registries.Set` -/

theorem loop_eq (r : registries) (pieces : List GoString) :
    registries.Set.loop r pieces =
      (r ++ (pieces.map TrimSpace).takeWhile validAddress,
        ((pieces.map TrimSpace).find? (fun t => !validAddress t)).map tokenError) := by
  induction pieces generalizing r with
  | nil => simp [registries.Set.loop]
  | cons reg rest ih =>
    simp only [registries.Set.loop, List.map_cons, List.takeWhile_cons, List.find?_cons]
    by_cases h1 : Contains (TrimSpace reg) "://".toList = true
    · have hv : validAddress (TrimSpace reg) = false := by
        simp only [validAddress, h1, Bool.not_true, Bool.and_false]
      rw [if_pos h1]
      simp only [hv, Bool.not_false, Bool.false_eq_true, if_false, List.append_nil,
        Option.map_some', tokenError, schemeError, h1, if_true]
    · rw [if_neg h1]
      have h1f : Contains (TrimSpace reg) "://".toList = false := by simpa using h1
      by_cases h2 : Contains (TrimSpace reg) ":".toList = true
      · have hv : validAddress (TrimSpace reg) = true := by
          simp only [validAddress, h1f, h2, Bool.not_false, Bool.and_true]
        simp only [h2, Bool.not_true, Bool.false_eq_true, if_false, hv, if_true, ih,
          List.append_assoc, List.singleton_append]
      · have h2f : Contains (TrimSpace reg) ":".toList = false := by simpa using h2
        have hv : validAddress (TrimSpace reg) = false := by
          simp only [validAddress, h2f, Bool.false_and]
        simp only [h2f, Bool.not_false, if_true, hv, Bool.false_eq_true, if_false,
          List.append_nil, Option.map_some', tokenError, missingPortError, h1f]

theorem Set_nil_eq (value : GoString) :
    registries.Set [] value =
      ((tokens value).takeWhile validAddress,
        ((tokens value).find? (fun t => !validAddress t)).map tokenError) := by
  simp [registries.Set, loop_eq, tokens]

theorem tokens_ne_nil (value : GoString) : tokens value ≠ [] := by
  simp [tokens, Split_ne_nil]

theorem takeWhile_eq_self_of_all {α : Type} (p : α → Bool) (l : List α)
    (h : ∀ x ∈ l, p x = true) : l.takeWhile p = l := by
  induction l with
  | nil => rfl
  | cons a t ih =>
    have ha : p a = true := h a (by simp)
    simp only [List.takeWhile_cons, ha, if_true]
    rw [ih (fun x hx => h x (by simp [hx]))]

theorem takeWhile_append_of_not {α : Type} (p : α → Bool) (pre post : List α) (a : α)
    (hpre : ∀ x ∈ pre, p x = true) (ha : p a = false) :
    (pre ++ a :: post).takeWhile p = pre := by
  induction pre with
  | nil => simp [List.takeWhile_cons, ha]
  | cons b t ih =>
    have hb : p b = true := hpre b (by simp)
    simp only [List.cons_append, List.takeWhile_cons, hb, if_true]
    rw [ih (fun x hx => hpre x (by simp [hx]))]

theorem Set_error_split (value err : GoString) (h : (registries.Set [] value).2 = some err) :
    ∃ pre tok post, tokens value = pre ++ tok :: post ∧ (∀ t ∈ pre, validAddress t = true) ∧
      validAddress tok = false ∧ err = tokenError tok ∧ (registries.Set [] value).1 = pre := by
  rw [Set_nil_eq] at h ⊢
  simp only [Option.map_eq_some'] at h
  obtain ⟨tok, hfind, herr⟩ := h
  rw [List.find?_eq_some] at hfind
  obtain ⟨hbad, pre, post, hsplit, hpre⟩ := hfind
  have hbad2 : validAddress tok = false := by simpa using hbad
  have hpre2 : ∀ t ∈ pre, validAddress t = true := by
    intro t ht
    simpa using hpre t ht
  refine ⟨pre, tok, post, hsplit, hpre2, hbad2, herr.symm, ?_⟩
  show List.takeWhile validAddress (tokens value) = pre
  rw [hsplit]
  exact takeWhile_append_of_not _ _ _ _ hpre2 hbad2

theorem Set_accept_iff (value : GoString) :
    (registries.Set [] value).2 = none ↔ ∀ t ∈ tokens value, validAddress t = true := by
  rw [Set_nil_eq]
  simp

theorem TrimSpace_noOuterSpace (s : GoString) : noOuterSpace (TrimSpace s) := by
  have hpre : TrimSpace s <+: s.dropWhile isSpace := List.rdropWhile_prefix isSpace _
  constructor
  · intro c hc
    have hne : TrimSpace s ≠ [] := by
      intro e
      rw [e] at hc
      simp at hc
    have h1 : (TrimSpace s).head hne = c := by
      rw [List.head?_eq_head hne] at hc
      exact Option.some.inj hc
    have hne2 : s.dropWhile isSpace ≠ [] := by
      intro e
      rw [e] at hpre
      exact hne (List.eq_nil_of_prefix_nil hpre)
    have h2 := hpre.head hne
    have h3 := List.head_dropWhile_not isSpace s hne2
    rw [← h1, h2]
    simpa using h3
  · intro c hc
    have hne : (s.dropWhile isSpace).rdropWhile isSpace ≠ [] := by
      intro e
      have e2 : TrimSpace s = [] := e
      rw [e2] at hc
      simp at hc
    have h1 := List.rdropWhile_last_not isSpace (s.dropWhile isSpace) hne
    have h2 : (TrimSpace s).getLast? = some (((s.dropWhile isSpace).rdropWhile isSpace).getLast hne) :=
      List.getLast?_eq_getLast _ hne
    rw [h2] at hc
    rw [← Option.some.inj hc]
    simpa using h1

theorem mem_tokens_noOuterSpace (value t : GoString) (h : t ∈ tokens value) : noOuterSpace t := by
  simp only [tokens, List.mem_map] at h
  obtain ⟨x, _, rfl⟩ := h
  exact TrimSpace_noOuterSpace x

theorem mem_Set_nil (value e : GoString) (h : e ∈ (registries.Set [] value).1) :
    e ∈ tokens value ∧ validAddress e = true := by
  rw [Set_nil_eq] at h
  exact ⟨(List.takeWhile_sublist _).subset h, List.mem_takeWhile_imp h⟩

theorem validAddress_iff (t : GoString) :
    validAddress t = true ↔ Contains t ":".toList = true ∧ Contains t "://".toList = false := by
  simp only [validAddress, Bool.and_eq_true, Bool.not_eq_true']

theorem Set_of_ne_nil (r : registries) (value : GoString) (h : r ≠ []) :
    registries.Set r value = (r, some alreadySetError) := by
  have hlen : r.length > 0 := List.length_pos.2 h
  simp only [registries.Set, hlen, if_true, alreadySetError]

theorem Set_nil_fst_ne_nil (value : GoString) (h : (registries.Set [] value).2 = none) :
    (registries.Set [] value).1 ≠ [] := by
  have hall := (Set_accept_iff value).1 h
  rw [Set_nil_eq]
  show List.takeWhile validAddress (tokens value) ≠ []
  rw [takeWhile_eq_self_of_all _ _ hall]
  exact tokens_ne_nil value

theorem goodEntries_Set (r : registries) (value : GoString) (h : goodEntries r) :
    goodEntries (registries.Set r value).1 := by
  by_cases hr : r = []
  · subst hr
    intro e he
    obtain ⟨hmem, hvalid⟩ := mem_Set_nil value e he
    obtain ⟨h1, h2⟩ := (validAddress_iff e).1 hvalid
    exact ⟨h1, h2, mem_tokens_noOuterSpace value e hmem⟩
  · rw [Set_of_ne_nil r value hr]
    exact h

theorem goodEntries_setAll (values : List GoString) (r : registries) (h : goodEntries r) :
    goodEntries (setAll r values) := by
  induction values generalizing r with
  | nil => exact h
  | cons v vs ih => exact ih _ (goodEntries_Set r v h)

/-! ## The claims on `registries.Set` -/

/-- C1: on an empty accumulator `registries.Set` returns nil exactly when every trimmed token
of the value contains `:` and does not contain `://`, and then the accumulator is the list of
the trimmed tokens, in order and with duplicates. -/
theorem Set_accepts_iff_tokens_valid (value : GoString) :
    ((registries.Set [] value).2 = none ↔
        ∀ t ∈ tokens value, Contains t ":".toList = true ∧ Contains t "://".toList = false) ∧
      ((registries.Set [] value).2 = none → (registries.Set [] value).1 = tokens value) := by
  constructor
  · rw [Set_accept_iff]
    exact forall₂_congr fun t _ => validAddress_iff t
  · intro h
    have hall := (Set_accept_iff value).1 h
    rw [Set_nil_eq]
    exact takeWhile_eq_self_of_all _ _ hall

/-- The example of C1: `"1.2.3.4:5000,5.6.7.8:6000"` is accepted and gives the two entries
in that order; a repeated address is kept twice. -/
theorem Set_accepts_iff_tokens_valid_witness :
    (registries.Set [] "1.2.3.4:5000,5.6.7.8:6000".toList).1
        = ["1.2.3.4:5000".toList, "5.6.7.8:6000".toList] ∧
      (registries.Set [] "a:1, a:1".toList).1 = ["a:1".toList, "a:1".toList] :=
  ⟨((Set_accepts_iff_tokens_valid "1.2.3.4:5000,5.6.7.8:6000".toList).2 (by decide)).trans
      (by decide),
    ((Set_accepts_iff_tokens_valid "a:1, a:1".toList).2 (by decide)).trans (by decide)⟩

/-- C2: on a non-empty accumulator `registries.Set` fails with
"Docker Registries flag already set" whatever the value, and leaves the accumulator
unchanged. -/
theorem Set_nonempty_already_set (r : registries) (value : GoString) (h : r ≠ []) :
    registries.Set r value = (r, some "Docker Registries flag already set".toList) :=
  Set_of_ne_nil r value h

/-- C2 at the accumulator `["1.2.3.4:5000"]` and the value `"5.6.7.8:6000"`. -/
theorem Set_nonempty_already_set_witness :
    registries.Set ["1.2.3.4:5000".toList] "5.6.7.8:6000".toList
      = (["1.2.3.4:5000".toList], some "Docker Registries flag already set".toList) :=
  Set_nonempty_already_set ["1.2.3.4:5000".toList] "5.6.7.8:6000".toList (by decide)

/-- C3: when `registries.Set` fails on an empty accumulator, the error is that of the first
trimmed token that is not a valid address: the scheme error naming the token if the token
contains `://` (and then never a missing-port error), the missing-port error naming the token
if it contains no `:`; one of the two is the case. -/
theorem Set_error_of_first_invalid_token (value err : GoString)
    (h : (registries.Set [] value).2 = some err) :
    ∃ pre tok post, tokens value = pre ++ tok :: post ∧
      (∀ t ∈ pre, validAddress t = true) ∧ validAddress tok = false ∧
      (Contains tok "://".toList = true ∨ Contains tok ":".toList = false) ∧
      (Contains tok "://".toList = true →
        err = "no scheme allowed for insecure Docker Registry [".toList ++ tok ++ "]".toList ∧
          ∀ t, err ≠ missingPortError t) ∧
      (Contains tok ":".toList = false →
        err = "ip:port expected for insecure Docker Registry [".toList ++ tok ++ "]".toList) := by
  obtain ⟨pre, tok, post, hsplit, hpre, hbad, herr, _⟩ := Set_error_split value err h
  refine ⟨pre, tok, post, hsplit, hpre, hbad, ?_, ?_, ?_⟩
  · by_cases h1 : Contains tok "://".toList = true
    · exact Or.inl h1
    · right
      have h1f : Contains tok "://".toList = false := by simpa using h1
      simpa only [validAddress, h1f, Bool.not_false, Bool.and_true] using hbad
  · intro h1
    have he : err = schemeError tok := by
      rw [herr]
      simp only [tokenError, h1, if_true]
    refine ⟨he, ?_⟩
    intro t ht
    rw [he] at ht
    have h2 := congrArg List.head? ht
    simp [schemeError, missingPortError] at h2
  · intro h2
    have h1f : Contains tok "://".toList = false := by
      by_contra hc
      have h3 := Contains_scheme_colon tok (by simpa using hc)
      rw [h2] at h3
      exact Bool.false_ne_true h3
    rw [herr]
    simp only [tokenError, h1f, Bool.false_eq_true, if_false, missingPortError]

/-- The examples of C3: `"http://1.2.3.4:5000"` yields the scheme error and `"1.2.3.4"` the
missing-port error, each naming the token. -/
theorem Set_error_of_first_invalid_token_witness :
    (∃ pre tok post, tokens "1.2.3.4".toList = pre ++ tok :: post ∧
      (∀ t ∈ pre, validAddress t = true) ∧ validAddress tok = false ∧
      (Contains tok "://".toList = true ∨ Contains tok ":".toList = false) ∧
      (Contains tok "://".toList = true →
        "ip:port expected for insecure Docker Registry [1.2.3.4]".toList
            = "no scheme allowed for insecure Docker Registry [".toList ++ tok ++ "]".toList ∧
          ∀ t, "ip:port expected for insecure Docker Registry [1.2.3.4]".toList
            ≠ missingPortError t) ∧
      (Contains tok ":".toList = false →
        "ip:port expected for insecure Docker Registry [1.2.3.4]".toList
          = "ip:port expected for insecure Docker Registry [".toList ++ tok ++ "]".toList)) ∧
      (registries.Set [] "http://1.2.3.4:5000".toList).2
        = some "no scheme allowed for insecure Docker Registry [http://1.2.3.4:5000]".toList :=
  ⟨Set_error_of_first_invalid_token "1.2.3.4".toList
      "ip:port expected for insecure Docker Registry [1.2.3.4]".toList (by decide),
    by decide⟩

/-- C4: once `registries.Set` has accepted a value on an empty accumulator, the accumulator
is not empty and a second call fails with the already-set error and changes nothing,
whatever the two values. -/
theorem Set_second_call_already_set (v1 v2 : GoString)
    (h : (registries.Set [] v1).2 = none) :
    (registries.Set [] v1).1 ≠ [] ∧
      registries.Set (registries.Set [] v1).1 v2
        = ((registries.Set [] v1).1, some "Docker Registries flag already set".toList) :=
  ⟨Set_nil_fst_ne_nil v1 h, Set_of_ne_nil _ v2 (Set_nil_fst_ne_nil v1 h)⟩

/-- C4 at `v1 = "1.2.3.4:5000"` and `v2 = "5.6.7.8:6000"`. -/
theorem Set_second_call_already_set_witness :
    (registries.Set [] "1.2.3.4:5000".toList).1 ≠ [] ∧
      registries.Set (registries.Set [] "1.2.3.4:5000".toList).1 "5.6.7.8:6000".toList
        = ((registries.Set [] "1.2.3.4:5000".toList).1,
            some "Docker Registries flag already set".toList) :=
  Set_second_call_already_set "1.2.3.4:5000".toList "5.6.7.8:6000".toList (by decide)

/-- C5 as stated fails: the value `"[::1]:5000"` is accepted, and its one entry has three
`:` characters. -/
theorem Set_admits_several_colons :
    registries.Set [] "[::1]:5000".toList = (["[::1]:5000".toList], none) ∧
      colonCount "[::1]:5000".toList = 3 := by
  decide

/-- C5, amended: every entry of the accumulator after `registries.Set` has returned nil
contains at least one `:` character and no `://` substring. -/
theorem Set_admitted_has_colon_no_scheme (r : registries) (value e : GoString)
    (h : (registries.Set r value).2 = none) (he : e ∈ (registries.Set r value).1) :
    1 ≤ colonCount e ∧ Contains e "://".toList = false := by
  have hr : r = [] := by
    by_contra hne
    rw [Set_of_ne_nil r value hne] at h
    exact Option.some_ne_none _ h
  subst hr
  obtain ⟨_, hvalid⟩ := mem_Set_nil value e he
  obtain ⟨h1, h2⟩ := (validAddress_iff e).1 hvalid
  refine ⟨?_, h2⟩
  have hmem : ':' ∈ e := (Contains_singleton ':' e).1 h1
  exact List.count_pos_iff.2 hmem

/-- C5, amended, at the value `"1.2.3.4:5000,[::1]:5000"` and its second entry. -/
theorem Set_admitted_has_colon_no_scheme_witness :
    1 ≤ colonCount "[::1]:5000".toList ∧ Contains "[::1]:5000".toList "://".toList = false :=
  Set_admitted_has_colon_no_scheme [] "1.2.3.4:5000,[::1]:5000".toList "[::1]:5000".toList
    (by decide) (by decide)

/-- C9: when `registries.Set` fails on an empty accumulator, the accumulator afterwards is
the list of the trimmed tokens before the first offending one, in order; it is empty exactly
when the first token is the offending one. -/
theorem Set_failure_keeps_earlier_tokens (value err : GoString)
    (h : (registries.Set [] value).2 = some err) :
    (∃ pre tok post, tokens value = pre ++ tok :: post ∧
        (∀ t ∈ pre, validAddress t = true) ∧ validAddress tok = false ∧
        (registries.Set [] value).1 = pre) ∧
      ((registries.Set [] value).1 = [] ↔
        ∃ tok post, tokens value = tok :: post ∧ validAddress tok = false) := by
  obtain ⟨pre, tok, post, hsplit, hpre, hbad, _, hacc⟩ := Set_error_split value err h
  refine ⟨⟨pre, tok, post, hsplit, hpre, hbad, hacc⟩, ?_⟩
  constructor
  · intro hnil
    rw [hacc] at hnil
    subst hnil
    exact ⟨tok, post, hsplit, hbad⟩
  · rintro ⟨tok2, post2, hsplit2, hbad2⟩
    rw [Set_nil_eq]
    show List.takeWhile validAddress (tokens value) = []
    rw [hsplit2]
    simp only [List.takeWhile_cons, hbad2, Bool.false_eq_true, if_false]

/-- The example of C9: `"1.2.3.4:5000,bad"` fails and leaves `["1.2.3.4:5000"]` in the
accumulator. -/
theorem Set_failure_keeps_earlier_tokens_witness :
    registries.Set [] "1.2.3.4:5000,bad".toList
        = (["1.2.3.4:5000".toList],
            some "ip:port expected for insecure Docker Registry [bad]".toList) ∧
      ((∃ pre tok post, tokens "1.2.3.4:5000,bad".toList = pre ++ tok :: post ∧
          (∀ t ∈ pre, validAddress t = true) ∧ validAddress tok = false ∧
          (registries.Set [] "1.2.3.4:5000,bad".toList).1 = pre) ∧
        ((registries.Set [] "1.2.3.4:5000,bad".toList).1 = [] ↔
          ∃ tok post, tokens "1.2.3.4:5000,bad".toList = tok :: post ∧
            validAddress tok = false)) :=
  ⟨by decide,
    Set_failure_keeps_earlier_tokens "1.2.3.4:5000,bad".toList
      "ip:port expected for insecure Docker Registry [bad]".toList (by decide)⟩

/-- C10: from an empty accumulator, after any finite sequence of `registries.Set` calls,
failed or not, every entry of the accumulator contains `:`, does not contain `://`, and has
no white space at either end. -/
theorem setAll_entries_valid_trimmed (values : List GoString) (e : GoString)
    (h : e ∈ setAll [] values) :
    Contains e ":".toList = true ∧ Contains e "://".toList = false ∧ noOuterSpace e :=
  goodEntries_setAll values [] (fun _ hx => absurd hx (List.not_mem_nil _)) e h

/-- C10 at the calls `"bad"`, `" 1.2.3.4:5000 ,http://x:1"`, `"5.6.7.8:6000"`: the first
fails and leaves the accumulator empty, the second fails after admitting its first token,
the third finds the flag already set. -/
theorem setAll_entries_valid_trimmed_witness :
    setAll [] ["bad".toList, " 1.2.3.4:5000 ,http://x:1".toList, "5.6.7.8:6000".toList]
        = ["1.2.3.4:5000".toList] ∧
      (Contains "1.2.3.4:5000".toList ":".toList = true ∧
        Contains "1.2.3.4:5000".toList "://".toList = false ∧
        noOuterSpace "1.2.3.4:5000".toList) :=
  ⟨by decide,
    setAll_entries_valid_trimmed
      ["bad".toList, " 1.2.3.4:5000 ,http://x:1".toList, "5.6.7.8:6000".toList]
      "1.2.3.4:5000".toList (by decide)⟩

/-! ## The shape of a run of `main` -/

theorem stage_exit {URL : Type} (w : World URL) (f : Flags) (pre : List (Event URL))
    (rn tg : GoString) :
    (main.stage w f pre rn tg).exit =
      match w.stat f.dockerDaemonExecutablePath with
      | some _ => 1
      | none =>
        match w.groupWait (builderOf f rn tg) (daemonOf f) with
        | some _ => 2
        | none => 0 := by
  unfold main.stage
  cases w.stat f.dockerDaemonExecutablePath with
  | some e => rfl
  | none =>
    show (match w.groupWait (builderOf f rn tg) (daemonOf f) with
      | some _ => _ | none => _ : Run URL).exit = _
    cases w.groupWait (builderOf f rn tg) (daemonOf f) <;> rfl

theorem stage_trace {URL : Type} (w : World URL) (f : Flags) (pre : List (Event URL))
    (rn tg : GoString) :
    ∃ post, (main.stage w f pre rn tg).trace = pre ++ Event.builder (builderOf f rn tg) :: post ∧
      (∀ x, Event.parseDockerRef x ∉ post) ∧ (∀ x, Event.parseDockerURL x ∉ post) ∧
      (∀ b, Event.builder b ∉ post) ∧
      (∀ b d, Event.invoke b d ∈ post → b = builderOf f rn tg ∧ d = daemonOf f) ∧
      (w.stat f.dockerDaemonExecutablePath = none →
        Event.invoke (builderOf f rn tg) (daemonOf f) ∈ post) ∧
      (w.stat f.dockerDaemonExecutablePath ≠ none → ∀ b d, Event.invoke b d ∉ post) := by
  unfold main.stage
  cases hs : w.stat f.dockerDaemonExecutablePath with
  | some e =>
    refine ⟨[.println ("docker daemon not found in ".toList ++ f.dockerDaemonExecutablePath)],
      rfl, ?_, ?_, ?_, ?_, ?_, ?_⟩ <;> simp
  | none =>
    cases hg : w.groupWait (builderOf f rn tg) (daemonOf f) with
    | some err =>
      refine ⟨[.invoke (builderOf f rn tg) (daemonOf f),
          .status "Staging process started ...".toList,
          .println ("Staging process failed: ".toList ++ err)], ?_, ?_, ?_, ?_, ?_, ?_, ?_⟩
      · show (match w.groupWait (builderOf f rn tg) (daemonOf f) with
          | some _ => _ | none => _ : Run URL).trace = _
        rw [hg]
        rfl
      all_goals simp
    | none =>
      refine ⟨[.invoke (builderOf f rn tg) (daemonOf f),
          .status "Staging process started ...".toList,
          .status "Staging process finished".toList], ?_, ?_, ?_, ?_, ?_, ?_, ?_⟩
      · show (match w.groupWait (builderOf f rn tg) (daemonOf f) with
          | some _ => _ | none => _ : Run URL).trace = _
        rw [hg]
        rfl
      all_goals simp

theorem main_parse_failed {URL : Type} (w : World URL) (f : Flags) (err : GoString)
    (h : w.flagParse = some err) :
    main w f = { trace := [.flagReport], exit := if err = ErrHelp then 0 else 2 } := by
  unfold main
  rw [h]
  by_cases he : err = ErrHelp
  · simp only [FlagSet.Parse, he, if_true]
  · simp only [FlagSet.Parse, he, if_false]

theorem main_url_malformed {URL : Type} (w : World URL) (f : Flags) (e : GoString)
    (h : w.flagParse = none) (hu : f.dockerImageURL ≠ [])
    (hp : w.urlParse f.dockerImageURL = .error e) :
    main w f =
      { trace := [.println ("invalid dockerImageURL: ".toList ++ f.dockerImageURL),
          .printDefaults]
        exit := 1 } := by
  have hlen : f.dockerImageURL.length > 0 := List.length_pos.2 hu
  unfold main
  rw [h]
  simp only [FlagSet.Parse, hlen, if_true, hp]

theorem main_url_mode {URL : Type} (w : World URL) (f : Flags) (parts : URL)
    (h : w.flagParse = none) (hu : f.dockerImageURL ≠ [])
    (hp : w.urlParse f.dockerImageURL = .ok parts) :
    main w f =
      main.stage w f [.parseDockerURL parts] (w.ParseDockerURL parts).1
        (w.ParseDockerURL parts).2 := by
  have hlen : f.dockerImageURL.length > 0 := List.length_pos.2 hu
  unfold main
  rw [h]
  simp only [FlagSet.Parse, hlen, if_true, hp]

theorem main_ref_mode {URL : Type} (w : World URL) (f : Flags)
    (h : w.flagParse = none) (hu : f.dockerImageURL = []) (hr : f.dockerRef ≠ []) :
    main w f =
      main.stage w f [.parseDockerRef f.dockerRef] (w.ParseDockerRef f.dockerRef).1
        (w.ParseDockerRef f.dockerRef).2 := by
  have hlen : f.dockerRef.length > 0 := List.length_pos.2 hr
  unfold main
  rw [h]
  simp only [FlagSet.Parse, hu, List.length_nil, gt_iff_lt, lt_self_iff_false, if_false, hlen,
    if_true]

theorem main_no_reference {URL : Type} (w : World URL) (f : Flags)
    (h : w.flagParse = none) (hu : f.dockerImageURL = []) (hr : f.dockerRef = []) :
    main w f =
      { trace := [.println "missing flag: dockerImageURL or dockerRef required".toList,
          .printDefaults]
        exit := 1 } := by
  unfold main
  rw [h]
  simp only [FlagSet.Parse, hu, hr, List.length_nil, gt_iff_lt, lt_self_iff_false, if_false]

/-- The outcome of `main` once a pair has been resolved, in terms of the steps `pre` taken
to resolve it. -/
theorem stage_summary {URL : Type} (w : World URL) (f : Flags) (pre : List (Event URL))
    (rn tg : GoString) :
    ((main.stage w f pre rn tg).exit = 1 ↔ w.stat f.dockerDaemonExecutablePath ≠ none) ∧
      ((main.stage w f pre rn tg).exit ≠ 1 →
        (w.groupWait (builderOf f rn tg) (daemonOf f) ≠ none →
          (main.stage w f pre rn tg).exit = 2) ∧
        (w.groupWait (builderOf f rn tg) (daemonOf f) = none →
          (main.stage w f pre rn tg).exit = 0)) := by
  rw [stage_exit]
  cases w.stat f.dockerDaemonExecutablePath with
  | some e => simp
  | none => cases w.groupWait (builderOf f rn tg) (daemonOf f) <;> simp

theorem stage_group {URL : Type} (w : World URL) (f : Flags) (pre : List (Event URL))
    (rn tg : GoString) (hpre : ∀ b d, Event.invoke b d ∉ pre) :
    ((main.stage w f pre rn tg).exit = 1 →
        ∀ b d, Event.invoke b d ∉ (main.stage w f pre rn tg).trace) ∧
      ((main.stage w f pre rn tg).exit ≠ 1 →
        ∃ b d, Event.invoke b d ∈ (main.stage w f pre rn tg).trace ∧
          (∀ b2 d2, Event.invoke b2 d2 ∈ (main.stage w f pre rn tg).trace → b2 = b ∧ d2 = d) ∧
          (w.groupWait b d ≠ none → (main.stage w f pre rn tg).exit = 2) ∧
          (w.groupWait b d = none → (main.stage w f pre rn tg).exit = 0)) := by
  obtain ⟨post, htrace, _, _, _, honly, hstart, hnone⟩ := stage_trace w f pre rn tg
  obtain ⟨hexit, hrest⟩ := stage_summary w f pre rn tg
  have hmem : ∀ b d, Event.invoke b d ∈ (main.stage w f pre rn tg).trace →
      Event.invoke b d ∈ post := by
    intro b d hin
    rw [htrace] at hin
    rcases List.mem_append.1 hin with h1 | h1
    · exact absurd h1 (hpre b d)
    · rcases List.mem_cons.1 h1 with h2 | h2
      · cases h2
      · exact h2
  constructor
  · intro h1 b d hin
    exact hnone (hexit.1 h1) b d (hmem b d hin)
  · intro h1
    have hs : w.stat f.dockerDaemonExecutablePath = none := by
      by_contra hc
      exact h1 (hexit.2 hc)
    refine ⟨builderOf f rn tg, daemonOf f, ?_, ?_, (hrest h1).1, (hrest h1).2⟩
    · rw [htrace]
      exact List.mem_append_right _ (List.mem_cons_of_mem _ (hstart hs))
    · intro b2 d2 hin
      exact honly b2 d2 (hmem b2 d2 hin)

theorem main_ignores_dockerRef {URL : Type} (w : World URL) (f : Flags) (ref : GoString)
    (hu : f.dockerImageURL ≠ []) : main w { f with dockerRef := ref } = main w f := by
  cases hfp : w.flagParse with
  | some err =>
    exact (main_parse_failed w { f with dockerRef := ref } err hfp).trans
      (main_parse_failed w f err hfp).symm
  | none =>
    cases hp : w.urlParse f.dockerImageURL with
    | error e =>
      exact (main_url_malformed w { f with dockerRef := ref } e hfp hu hp).trans
        (main_url_malformed w f e hfp hu hp).symm
    | ok parts =>
      exact (main_url_mode w { f with dockerRef := ref } parts hfp hu hp).trans
        (main_url_mode w f parts hfp hu hp).symm

theorem mem_pre_builder {URL : Type} (a b e : Event URL) (post : List (Event URL))
    (h : e ∈ [a] ++ b :: post) : e = a ∨ e = b ∨ e ∈ post := by
  simpa using h

/-- The resolver steps, the `Builder` values and the group invocations of the rest of `main`
once a resolver step `a` has returned the pair `p`. -/
theorem stage_resolution {URL : Type} (w : World URL) (f : Flags) (a : Event URL)
    (p : GoString × GoString) :
    (∀ x, Event.parseDockerRef x ∈ (main.stage w f [a] p.1 p.2).trace →
        Event.parseDockerRef x = a) ∧
      (∀ x, Event.parseDockerURL x ∈ (main.stage w f [a] p.1 p.2).trace →
        Event.parseDockerURL x = a) ∧
      (∀ b, Event.builder b ∈ (main.stage w f [a] p.1 p.2).trace →
        (∃ b2, a = Event.builder b2) ∨ some p = some (b.RepoName, b.Tag)) ∧
      (∀ b d, Event.invoke b d ∈ (main.stage w f [a] p.1 p.2).trace →
        (∃ b2 d2, a = Event.invoke b2 d2) ∨ some p = some (b.RepoName, b.Tag)) ∧
      (∃ b, Event.builder b ∈ (main.stage w f [a] p.1 p.2).trace ∧ (b.RepoName, b.Tag) = p) := by
  obtain ⟨post, htrace, h1, h2, h3, h4, _, _⟩ := stage_trace w f [a] p.1 p.2
  rw [htrace]
  refine ⟨?_, ?_, ?_, ?_, ?_⟩
  · intro x hx
    rcases mem_pre_builder _ _ _ _ hx with h | h | h
    · exact h
    · exact Event.noConfusion h
    · exact absurd h (h1 x)
  · intro x hx
    rcases mem_pre_builder _ _ _ _ hx with h | h | h
    · exact h
    · exact Event.noConfusion h
    · exact absurd h (h2 x)
  · intro b hb
    rcases mem_pre_builder _ _ _ _ hb with h | h | h
    · exact Or.inl ⟨b, h.symm⟩
    · right
      rw [Event.builder.inj h]
      rfl
    · exact absurd h (h3 b)
  · intro b d hb
    rcases mem_pre_builder _ _ _ _ hb with h | h | h
    · exact Or.inl ⟨b, d, h.symm⟩
    · exact Event.noConfusion h
    · right
      rw [(h4 b d h).1]
      rfl
  · exact ⟨builderOf f p.1 p.2, by simp, rfl⟩

/-- The resolver steps, the `Builder` values and the group invocations of a run of `main`,
against the pair of the resolver chosen for the flags. -/
theorem main_resolution {URL : Type} (w : World URL) (f : Flags) :
    (∀ x, Event.parseDockerRef x ∈ (main w f).trace →
        f.dockerImageURL = [] ∧ f.dockerRef ≠ [] ∧ x = f.dockerRef) ∧
      (∀ x, Event.parseDockerURL x ∈ (main w f).trace →
        f.dockerImageURL ≠ [] ∧ w.urlParse f.dockerImageURL = .ok x) ∧
      (∀ b, Event.builder b ∈ (main w f).trace → chosenPair w f = some (b.RepoName, b.Tag)) ∧
      (∀ b d, Event.invoke b d ∈ (main w f).trace →
        chosenPair w f = some (b.RepoName, b.Tag)) ∧
      (w.flagParse = none → ∀ p, chosenPair w f = some p →
        ∃ b, Event.builder b ∈ (main w f).trace ∧ (b.RepoName, b.Tag) = p) := by
  cases hfp : w.flagParse with
  | some err =>
    rw [main_parse_failed w f err hfp]
    simp
  | none =>
    by_cases hu : f.dockerImageURL = []
    · by_cases hr : f.dockerRef = []
      · rw [main_no_reference w f hfp hu hr]
        simp [chosenPair, hu, hr]
      · rw [main_ref_mode w f hfp hu hr]
        obtain ⟨h1, h2, h3, h4, h5⟩ :=
          stage_resolution w f (.parseDockerRef f.dockerRef) (w.ParseDockerRef f.dockerRef)
        have hc : chosenPair w f = some (w.ParseDockerRef f.dockerRef) := by
          simp [chosenPair, hu, hr]
        rw [hc]
        refine ⟨?_, ?_, ?_, ?_, ?_⟩
        · intro x hx
          exact ⟨hu, hr, Event.parseDockerRef.inj (h1 x hx)⟩
        · intro x hx
          exact Event.noConfusion (h2 x hx)
        · intro b hb
          rcases h3 b hb with ⟨b2, h⟩ | h
          · exact Event.noConfusion h
          · exact h
        · intro b d hb
          rcases h4 b d hb with ⟨b2, d2, h⟩ | h
          · exact Event.noConfusion h
          · exact h
        · intro _ p hp
          rw [← Option.some.inj hp]
          exact h5
    · cases hp : w.urlParse f.dockerImageURL with
      | error e =>
        rw [main_url_malformed w f e hfp hu hp]
        simp [chosenPair, hu, hp]
      | ok parts =>
        rw [main_url_mode w f parts hfp hu hp]
        obtain ⟨h1, h2, h3, h4, h5⟩ :=
          stage_resolution w f (.parseDockerURL parts) (w.ParseDockerURL parts)
        have hc : chosenPair w f = some (w.ParseDockerURL parts) := by
          simp [chosenPair, hu, hp]
        rw [hc]
        refine ⟨?_, ?_, ?_, ?_, ?_⟩
        · intro x hx
          exact Event.noConfusion (h1 x hx)
        · intro x hx
          rw [Event.parseDockerURL.inj (h2 x hx)]
          exact ⟨hu, rfl⟩
        · intro b hb
          rcases h3 b hb with ⟨b2, h⟩ | h
          · exact Event.noConfusion h
          · exact h
        · intro b d hb
          rcases h4 b d hb with ⟨b2, d2, h⟩ | h
          · exact Event.noConfusion h
          · exact h
        · intro _ p hp2
          rw [← Option.some.inj hp2]
          exact h5

/-! ## The claims on `main` -/

/-- The exit status of `main` as the code has it: when reading the arguments meets an error
the process ends inside `flagSet.Parse` with status 0 (`ErrHelp`) or 2, never 1, and the group
is not invoked; the status is 1 exactly when the arguments parse and `dockerImageURL` is
non-empty and `url.Parse` fails on it, or `dockerImageURL` and `dockerRef` are both empty, or
`os.Stat` fails on the daemon path, again without the group; otherwise, the arguments having
parsed, the group is invoked once and the status is 2 if its result is a non-nil error and 0 if
it is nil. -/
theorem main_exit_cases {URL : Type} (w : World URL) (f : Flags) :
    (∀ err, w.flagParse = some err →
        (main w f).exit = (if err = ErrHelp then 0 else 2) ∧ (main w f).exit ≠ 1 ∧
          ∀ b d, Event.invoke b d ∉ (main w f).trace) ∧
      ((main w f).exit = 1 ↔
        (w.flagParse = none ∧
          ((f.dockerImageURL ≠ [] ∧ ∃ e, w.urlParse f.dockerImageURL = .error e) ∨
            (f.dockerImageURL = [] ∧ f.dockerRef = []) ∨
            w.stat f.dockerDaemonExecutablePath ≠ none))) ∧
      ((main w f).exit = 1 → ∀ b d, Event.invoke b d ∉ (main w f).trace) ∧
      (w.flagParse = none → (main w f).exit ≠ 1 →
        ∃ b d, Event.invoke b d ∈ (main w f).trace ∧
          (∀ b2 d2, Event.invoke b2 d2 ∈ (main w f).trace → b2 = b ∧ d2 = d) ∧
          (w.groupWait b d ≠ none → (main w f).exit = 2) ∧
          (w.groupWait b d = none → (main w f).exit = 0)) := by
  cases hfp : w.flagParse with
  | some err =>
    rw [main_parse_failed w f err hfp]
    by_cases he : err = ErrHelp <;> simp [he]
  | none =>
    by_cases hu : f.dockerImageURL = []
    · by_cases hr : f.dockerRef = []
      · rw [main_no_reference w f hfp hu hr]
        simp [hu, hr]
      · rw [main_ref_mode w f hfp hu hr]
        obtain ⟨hg1, hg2⟩ := stage_group w f [.parseDockerRef f.dockerRef]
          (w.ParseDockerRef f.dockerRef).1 (w.ParseDockerRef f.dockerRef).2 (by simp)
        refine ⟨by simp, ?_, hg1, fun _ => hg2⟩
        rw [(stage_summary w f _ _ _).1]
        simp [hu, hr]
    · cases hp : w.urlParse f.dockerImageURL with
      | error e =>
        rw [main_url_malformed w f e hfp hu hp]
        simp [hu]
      | ok parts =>
        rw [main_url_mode w f parts hfp hu hp]
        obtain ⟨hg1, hg2⟩ := stage_group w f [.parseDockerURL parts]
          (w.ParseDockerURL parts).1 (w.ParseDockerURL parts).2 (by simp)
        refine ⟨by simp, ?_, hg1, fun _ => hg2⟩
        rw [(stage_summary w f _ _ _).1]
        simp [hu]

/-- C6 fails at the command line `builder -noSuchFlag`: flag parsing fails, and the exit
status is 2, not 1, because the `ExitOnError` flag set ends the process inside
`flagSet.Parse`; the group is not invoked although the status is not 1. -/
theorem main_undefined_flag_exit_status :
    undefinedFlagWorld.flagParse ≠ none ∧
      (main undefinedFlagWorld defaultFlags).exit = 2 ∧
      (main undefinedFlagWorld defaultFlags).exit ≠ 1 ∧
      (main undefinedFlagWorld defaultFlags).trace = [Event.flagReport] ∧
      ∀ b d, Event.invoke b d ∉ (main undefinedFlagWorld defaultFlags).trace := by
  have h : main undefinedFlagWorld defaultFlags = { trace := [.flagReport], exit := 2 } := by
    decide
  rw [h]
  refine ⟨by decide, rfl, by decide, rfl, ?_⟩
  intro b d hin
  simp at hin

/-- C7: when `dockerImageURL` is non-empty `main` resolves from it and `dockerRef` is
ignored; `helpers.ParseDockerRef` is called only on `dockerRef` with `dockerImageURL` empty
and `dockerRef` non-empty; and the `(RepoName, Tag)` of the `Builder` value, also as handed
to the group, is the pair the chosen resolver returned. -/
theorem main_reference_resolution {URL : Type} (w : World URL) (f : Flags) :
    (f.dockerImageURL ≠ [] →
        (∀ ref, main w { f with dockerRef := ref } = main w f) ∧
        (∀ x, Event.parseDockerRef x ∉ (main w f).trace) ∧
        (w.flagParse = none → ∀ parts, w.urlParse f.dockerImageURL = .ok parts →
          Event.parseDockerURL parts ∈ (main w f).trace ∧
          Event.builder (builderOf f (w.ParseDockerURL parts).1 (w.ParseDockerURL parts).2)
            ∈ (main w f).trace)) ∧
      (∀ x, Event.parseDockerRef x ∈ (main w f).trace →
        f.dockerImageURL = [] ∧ f.dockerRef ≠ [] ∧ x = f.dockerRef) ∧
      (w.flagParse = none → f.dockerImageURL = [] → f.dockerRef ≠ [] →
        Event.parseDockerRef f.dockerRef ∈ (main w f).trace ∧
        Event.builder (builderOf f (w.ParseDockerRef f.dockerRef).1
          (w.ParseDockerRef f.dockerRef).2) ∈ (main w f).trace) ∧
      (∀ b, Event.builder b ∈ (main w f).trace → chosenPair w f = some (b.RepoName, b.Tag)) ∧
      (∀ b d, Event.invoke b d ∈ (main w f).trace →
        chosenPair w f = some (b.RepoName, b.Tag)) := by
  obtain ⟨href, _, hb, hi, _⟩ := main_resolution w f
  refine ⟨?_, href, ?_, hb, hi⟩
  · intro hu
    refine ⟨fun ref => main_ignores_dockerRef w f ref hu, ?_, ?_⟩
    · intro x hx
      exact hu (href x hx).1
    · intro hfp parts hp
      rw [main_url_mode w f parts hfp hu hp]
      obtain ⟨post, htrace, _⟩ := stage_trace w f [.parseDockerURL parts]
        (w.ParseDockerURL parts).1 (w.ParseDockerURL parts).2
      rw [htrace]
      simp
  · intro hfp hu hr
    rw [main_ref_mode w f hfp hu hr]
    obtain ⟨post, htrace, _⟩ := stage_trace w f [.parseDockerRef f.dockerRef]
      (w.ParseDockerRef f.dockerRef).1 (w.ParseDockerRef f.dockerRef).2
    rw [htrace]
    simp

/-- C7 in the sample world with both flags given: `dockerRef` is ignored and the pair comes
from `dockerImageURL`. -/
theorem main_reference_resolution_witness :
    (∀ ref, main sampleWorld { sampleFlags with dockerRef := ref }
        = main sampleWorld sampleFlags) ∧
      (∀ x, Event.parseDockerRef x ∉ (main sampleWorld sampleFlags).trace) ∧
      (sampleWorld.flagParse = none →
        ∀ parts, sampleWorld.urlParse sampleFlags.dockerImageURL = .ok parts →
          Event.parseDockerURL parts ∈ (main sampleWorld sampleFlags).trace ∧
          Event.builder (builderOf sampleFlags (sampleWorld.ParseDockerURL parts).1
            (sampleWorld.ParseDockerURL parts).2) ∈ (main sampleWorld sampleFlags).trace) :=
  (main_reference_resolution sampleWorld sampleFlags).1 (by decide)

end BuilderMain
